import Mathlib

/-!
Verification of the content-selection, validation, thread-formatting,
gating and store layer of an automated content-posting pipeline.

Strings of the source program (Python `str`, sequences of code points)
are embedded as `List Char`.  Each definition mirrors one function of the
source; the file is organised source-file by source-file:
  - content_generator.py : cleaning / splitting / validation / truncation
  - twitter_client.py    : thread classification and thread posting
  - database.py          : store state and its operations
  - scheduler.py         : daily gating and the queue-drain pass
-/

namespace TwitterBot

/-- Program strings are sequences of code points. -/
abbrev Str := List Char

/-! ## Shared string primitives (Python semantics) -/

/-- Python whitespace for `str.strip` and the regex class backslash-s
(space, tab, newline, carriage return, vertical tab, form feed). -/
def pyIsSpace (c : Char) : Bool :=
  c = ' ' || c = '\t' || c = '\n' || c = '\r' || c = '\x0b' || c = '\x0c'

/-- Python `str.strip()`: drop leading and trailing whitespace. -/
def pyStrip (s : Str) : Str :=
  ((s.dropWhile pyIsSpace).reverse.dropWhile pyIsSpace).reverse

/-- Helper for the blank-line regex: the part of a whitespace run that
follows its last newline. -/
def afterLastNl (run : Str) : Str :=
  (run.reverse.takeWhile (fun c => !(c = '\n'))).reverse

/-- One match step of the regex newline-backslash-s-star-newline at a
position whose current character is a newline: the following maximal
whitespace run must contain another newline (the greedy star backtracks
to the last one); returns the remainder after the match. -/
def nlGap (rest : Str) : Option Str :=
  let run := rest.takeWhile pyIsSpace
  if run.contains '\n' then some (afterLastNl run ++ rest.dropWhile pyIsSpace)
  else none

/-- Fuelled scan for the substitution of blank-line runs by a single
blank line; each step consumes at least one character, so fuel equal to
the input length always suffices. -/
def normWsGo : Nat → Str → Str
  | 0, s => s
  | _, [] => []
  | fuel + 1, c :: rest =>
    if c = '\n' then
      match nlGap rest with
      | some rest2 => '\n' :: '\n' :: normWsGo fuel rest2
      | none => c :: normWsGo fuel rest
    else c :: normWsGo fuel rest

/-- Python `re.sub` of the pattern newline-backslash-s-star-newline by two
newlines (collapse blank-line runs), as used on the model response. -/
def normWs (s : Str) : Str := normWsGo s.length s

/-- Python `content.split
("\n\n")` on the two-newline separator, left to right, keeping empty
pieces. -/
def splitOnNlNl : Str → List Str
  | [] => [[]]
  | [c] => [[c]]
  | c1 :: c2 :: rest =>
    if c1 = '\n' && c2 = '\n' then [] :: splitOnNlNl rest
    else
      match splitOnNlNl (c2 :: rest) with
      | [] => [[c1]]
      | p :: ps => (c1 :: p) :: ps

/-- Sentence-ending punctuation of the lookbehind class. -/
def isSentEnd (c : Char) : Bool := c = '.' || c = '!' || c = '?'

/-- Fuelled scan for `re.split` with a lookbehind for sentence-ending
punctuation followed by a whitespace run: a cut happens after a
sentence-ending character that is immediately followed by whitespace,
and the whole whitespace run is consumed as the separator. -/
def sentSplitGo : Nat → Str → List Str
  | 0, s => [s]
  | _, [] => [[]]
  | fuel + 1, c :: rest =>
    if isSentEnd c && (match rest.head? with | some r => pyIsSpace r | none => false) then
      [c] :: sentSplitGo fuel (rest.dropWhile pyIsSpace)
    else
      match sentSplitGo fuel rest with
      | [] => [[c]]
      | p :: ps => (c :: p) :: ps

/-- Python `re.split` on whitespace runs preceded by `.`, `!` or `?`,
the sentence splitter shared by `_split_into_tweets` and
`_truncate_tweet`. -/
def sentSplit (s : Str) : List Str := sentSplitGo s.length s

/-- Fuelled scan for Python `str.split()` with no argument: words are
maximal runs of non-whitespace, empty pieces are dropped. -/
def wordsGo : Nat → Str → List Str
  | 0, _ => []
  | _, [] => []
  | fuel + 1, c :: rest =>
    if pyIsSpace c then wordsGo fuel rest
    else
      (c :: rest.takeWhile (fun d => !pyIsSpace d))
        :: wordsGo fuel (rest.dropWhile (fun d => !pyIsSpace d))

/-- Python `tweet.split()`. -/
def wordsOf (s : Str) : List Str := wordsGo s.length s

/-! ## content_generator.py -/

/-- The literal ellipsis appended by the truncation paths. -/
def ellipsis : Str := ['.', '.', '.']

/-- The greedy accumulation loop shared by both truncation passes of
`_truncate_tweet`: keep adding pieces while the accumulated text, a
single joining space, and the next piece stay within the limit; stop at
the first piece that does not fit.  The length test always accounts for
the joining space, even when the accumulator is still empty. -/
def truncGreedy (limit : Nat) : List Str → Str → Str
  | [], acc => acc
  | s :: rest, acc =>
    if acc.length + 1 + s.length ≤ limit then
      truncGreedy limit rest (if acc.isEmpty then s else acc ++ ' ' :: s)
    else acc

/-- `ContentGenerator._truncate_tweet`: inputs of length at most 280 are
returned unchanged; otherwise prefer the greedy run of whole sentences
within 277 characters, then the greedy run of whole words within 277
characters, and as a last resort the first 277 characters, in every case
followed by an ellipsis. -/
def truncateTweet (tweet : Str) : Str :=
  if tweet.length ≤ 280 then tweet
  else
    if (truncGreedy 277 (sentSplit tweet) []).isEmpty then
      if (truncGreedy 277 (wordsOf tweet) []).isEmpty then tweet.take 277 ++ ellipsis
      else truncGreedy 277 (wordsOf tweet) [] ++ ellipsis
    else truncGreedy 277 (sentSplit tweet) [] ++ ellipsis

/-- The sentence-packing loop of `_split_into_tweets` for paragraphs over
280 characters: pack sentences greedily into the current tweet; when the
next sentence does not fit, emit the current tweet (if non-empty) and
start over from that sentence; emit the final tweet if non-empty. -/
def packLoop : List Str → Str → List Str
  | [], cur => if cur.isEmpty then [] else [cur]
  | s :: rest, cur =>
    if cur.length + 1 + s.length ≤ 280 then
      packLoop rest (if cur.isEmpty then s else cur ++ ' ' :: s)
    else if cur.isEmpty then packLoop rest s
    else cur :: packLoop rest s

/-- `ContentGenerator._split_into_tweets`: split on blank lines; a
stripped non-empty paragraph of at most 280 characters is one tweet,
longer paragraphs are split at sentence boundaries and packed
greedily. -/
def splitIntoTweets (content : Str) : List Str :=
  (splitOnNlNl content).foldl
    (fun tweets para =>
      let p := pyStrip para
      if p.isEmpty then tweets
      else if p.length ≤ 280 then tweets ++ [p]
      else tweets ++ packLoop (sentSplit p) []) []

/-- The four-character sequence the generator appends after the first
tweet of a thread.  In the source file the intended thread emoji was
double-encoded, so the literal consists of the code points U+00F0,
U+0178, U+00A7, U+00B5 rather than the single code point U+1F9F5. -/
def genThreadMarker : Str :=
  [Char.ofNat 0xF0, Char.ofNat 0x178, Char.ofNat 0xA7, Char.ofNat 0xB5]

/-- The per-tweet validation loop of `_clean_and_validate_content`: strip
each tweet, truncate it when over 280 characters, and discard it when
under 50 characters. -/
def validateTweets (tweets : List Str) : List Str :=
  tweets.foldl
    (fun acc tw =>
      let t := pyStrip tw
      let t2 := if 280 < t.length then truncateTweet t else t
      if t2.length < 50 then acc else acc ++ [t2]) []

/-- The thread numbering of `_clean_and_validate_content`: the first
tweet gets a space and the thread marker appended, tweet number i of n
(counting from one) is prefixed with its number, a slash, the total and
a space. -/
def decorate (ts : List Str) : List Str :=
  ts.enum.map
    (fun it =>
      if it.1 = 0 then it.2 ++ ' ' :: genThreadMarker
      else Nat.toDigits 10 (it.1 + 1) ++ '/' :: (Nat.toDigits 10 ts.length ++ ' ' :: it.2))

/-- Join pieces with a blank line, as the final `"\n\n".join`. -/
def joinNlNl (ts : List Str) : Str := List.intercalate ['\n', '\n'] ts

/-- `ContentGenerator._clean_and_validate_content`: reject empty input,
normalise whitespace, split into tweets, validate each, reject when no
tweet survives, and return the single survivor or the decorated joined
thread. -/
def clean_and_validate_content (content : Str) : Option Str :=
  if content.isEmpty then none
  else if (splitIntoTweets (normWs (pyStrip content))).isEmpty then none
  else
    match validateTweets (splitIntoTweets (normWs (pyStrip content))) with
    | [] => none
    | [t] => some t
    | ts => some (joinNlNl (decorate ts))

/-- `ContentGenerator.generate_content`, abstracted over the external
model call: a missing or empty response yields no content, otherwise the
response text is cleaned and validated. -/
def generate_content (responseText : Option Str) : Option Str :=
  match responseText with
  | none => none
  | some t => if t.isEmpty then none else clean_and_validate_content t

/-! ## twitter_client.py -/

/-- The single code point U+1F9F5 tested by the thread classifier. -/
def threadEmoji : Char := Char.ofNat 0x1F9F5

/-- `TwitterClient._is_thread_content`: content is a thread when it
contains a slash and one of the last three characters before the first
slash is a digit, or when it has more than one stripped non-empty
blank-line-separated paragraph, or when it contains the code point
U+1F9F5. -/
def is_thread_content (content : Str) : Bool :=
  (content.contains '/'
      && ((content.takeWhile (fun c => !(c = '/'))).drop
            ((content.takeWhile (fun c => !(c = '/'))).length - 3)).any Char.isDigit)
  || decide (1 < (((splitOnNlNl content).map pyStrip).filter (fun p => !p.isEmpty)).length)
  || content.contains threadEmoji

/-- Result of one platform call inside `post_thread`: a created post's
identifier, a response without data (the loop breaks), or a raised
exception (caught by the surrounding handler). -/
inductive PResult where
  | ok (id : Nat)
  | failResp
  | exc
deriving DecidableEq

/-- The hard truncation applied to each thread segment before posting:
over 280 characters means cut to 277 plus an ellipsis. -/
def truncHard (t : Str) : Str :=
  if 280 < t.length then t.take 277 ++ ellipsis else t

/-- The submission loop of `TwitterClient.post_thread` over the
remaining segments.  `platform` maps the index of the call being made
and the identifier replied to onto the platform's behaviour; `c` counts
platform calls made so far, `ids` accumulates confirmed identifiers.
Returns the accumulated identifiers and the total number of platform
calls: a response without data breaks the loop, an exception aborts it
(both then fall through to the same non-empty check). -/
def ptGo (platform : Nat → Option Nat → PResult) :
    List Str → Nat → Option Nat → List Nat → List Nat × Nat
  | [], c, _, ids => (ids, c)
  | tw :: rest, c, prev, ids =>
    if (truncHard (pyStrip tw)).length < 10 then ptGo platform rest c prev ids
    else
      match platform c prev with
      | PResult.ok id => ptGo platform rest (c + 1) (some id) (ids ++ [id])
      | PResult.failResp => (ids, c + 1)
      | PResult.exc => (ids, c + 1)

/-- `TwitterClient.post_thread`: an empty segment list yields no result;
otherwise the segments are submitted in order, each as a reply to the
previous confirmed identifier, and whatever identifiers were confirmed
are returned (none when no segment was confirmed). -/
def post_thread (platform : Nat → Option Nat → PResult) (tweets : List Str) :
    Option (List Nat) :=
  if tweets.isEmpty then none
  else
    if (ptGo platform tweets 0 none []).1.isEmpty then none
    else some (ptGo platform tweets 0 none []).1

/-! ## database.py

The store is embedded as three lists mirroring the `projects`,
`posted_content` and `content_queue` tables.  Timestamps are integers.
Columns that no modelled operation reads or writes (name, website,
twitter_handle, description, category, added_date, engagement_score,
content_type, status — the last is the constant `pending` on every row
the modelled queries touch) are omitted from the row types. -/

/-- A row of the `projects` table. -/
structure Project where
  id : Nat
  last_posted : Option Int
  post_count : Nat
  is_active : Bool
deriving DecidableEq

/-- A row of the `posted_content` table. -/
structure PostedRec where
  project_id : Nat
  content : Str
  tweet_id : Nat
  posted_date : Int
deriving DecidableEq

/-- A row of the `content_queue` table. -/
structure QueueItem where
  id : Nat
  project_id : Nat
  content : Str
  scheduled_time : Int
  created_date : Int
deriving DecidableEq

/-- The whole store. -/
structure Store where
  projects : List Project
  posted : List PostedRec
  queue : List QueueItem
deriving DecidableEq

/-- Seconds in one day, the unit of `timedelta(days=1)`. -/
def secondsPerDay : Int := 86400

/-- The WHERE clause of `get_next_project_to_post`: active, and never
posted or posted strictly before the 24-hour cutoff. -/
def eligible (now : Int) (p : Project) : Bool :=
  p.is_active &&
    (match p.last_posted with
     | none => true
     | some t => decide (t < now - secondsPerDay))

/-- Strict comparison of `last_posted` keys under `ORDER BY last_posted
ASC NULLS FIRST`: a null key sorts before every non-null key. -/
def lpLt (a b : Option Int) : Bool :=
  match a, b with
  | none, none => false
  | none, some _ => true
  | some _, none => false
  | some x, some y => decide (x < y)

/-- `LIMIT 1` of the ascending sort: the first row whose key is minimal
(ties between equal keys are resolved arbitrarily by the engine; this
rendering keeps the earliest such row). -/
def minByLastPosted : List Project → Option Project
  | [] => none
  | p :: rest =>
    match minByLastPosted rest with
    | none => some p
    | some q => if lpLt q.last_posted p.last_posted then some q else some p

/-- `DatabaseManager.get_next_project_to_post`. -/
def get_next_project_to_post (now : Int) (db : Store) : Option Project :=
  minByLastPosted (db.projects.filter (eligible now))

/-- `DatabaseManager.mark_content_posted`: look the queue row up by id;
when absent do nothing; when present insert a posted row copying its
project and content, bump the project's counter and timestamp, and
delete the queue row. -/
def mark_content_posted (now : Int) (db : Store) (queue_id : Nat) (tweet_id : Nat) :
    Store :=
  match db.queue.find? (fun q => q.id == queue_id) with
  | none => db
  | some qc =>
    ⟨db.projects.map
        (fun p =>
          if p.id == qc.project_id then ⟨p.id, some now, p.post_count + 1, p.is_active⟩
          else p),
      db.posted ++ [⟨qc.project_id, qc.content, tweet_id, now⟩],
      db.queue.filter (fun q => !(q.id == queue_id))⟩

/-- Ordered insertion for the `ORDER BY scheduled_time ASC` of the
pending-content query. -/
def insertByTime (q : QueueItem) : List QueueItem → List QueueItem
  | [] => [q]
  | r :: rs =>
    if decide (q.scheduled_time ≤ r.scheduled_time) then q :: r :: rs
    else r :: insertByTime q rs

/-- Insertion sort by `scheduled_time`. -/
def sortByTime : List QueueItem → List QueueItem
  | [] => []
  | q :: qs => insertByTime q (sortByTime qs)

/-- `DatabaseManager.get_pending_content`: pending rows whose scheduled
time has passed, oldest scheduled first. -/
def get_pending_content (now : Int) (db : Store) : List QueueItem :=
  sortByTime (db.queue.filter (fun q => decide (q.scheduled_time ≤ now)))

/-- The purge step of `ContentScheduler._weekly_maintenance`: delete
posted rows older than 90 days.  The engagement-score refresh that
follows touches no column of the embedded row type and no row set. -/
def weekly_maintenance (now : Int) (db : Store) : Store :=
  ⟨db.projects,
    db.posted.filter (fun r => !(decide (r.posted_date < now - 90 * secondsPerDay))),
    db.queue⟩

/-- The documented relation between a project's counter and the posted
rows that reference it. -/
def postCountInv (db : Store) : Prop :=
  ∀ p ∈ db.projects,
    p.post_count = (db.posted.filter (fun r => r.project_id == p.id)).length

instance (db : Store) : Decidable (postCountInv db) :=
  inferInstanceAs (Decidable (∀ p ∈ db.projects,
    p.post_count = (db.posted.filter (fun r => r.project_id == p.id)).length))

/-! ## scheduler.py -/

/-- The orchestrator's in-memory gating state: `daily_post_count` and
`last_post_date` (a calendar day, encoded as a number). -/
structure SchedState where
  daily_post_count : Nat
  last_post_date : Option Nat
deriving DecidableEq

/-- The posting cap set in the scheduler's constructor. -/
def max_posts_per_day : Nat := 8

/-- The lazy reset shared by `_can_post_today` and
`_increment_daily_post_count`: when the current date differs from the
last-observed posting date, zero the counter and remember the date. -/
def canPostUpd (today : Nat) (s : SchedState) : SchedState :=
  if s.last_post_date ≠ some today then ⟨0, some today⟩ else s

/-- `ContentScheduler._can_post_today`: apply the lazy reset, then
compare the counter with the cap. -/
def can_post_today (today : Nat) (s : SchedState) : SchedState × Bool :=
  (canPostUpd today s, decide ((canPostUpd today s).daily_post_count < max_posts_per_day))

/-- `ContentScheduler._increment_daily_post_count`: the same lazy reset,
then bump the counter. -/
def increment_daily_post_count (today : Nat) (s : SchedState) : SchedState :=
  ⟨(canPostUpd today s).daily_post_count + 1, (canPostUpd today s).last_post_date⟩

/-- Outcome of one queue-drain pass: final store, final gating state,
number of successful publishes, number of items submitted to the
publisher. -/
structure QueueRunResult where
  db : Store
  sched : SchedState
  published : Nat
  attempted : Nat
deriving DecidableEq

/-- The per-item loop of `ContentScheduler._process_content_queue`: the
gate is re-evaluated before each item and a failed gate breaks the
loop; a successful publish records the post in the store and bumps the
daily counter, a failed publish only counts the attempt.  `publish`
abstracts `TwitterClient.post_content`. -/
def pcqLoop (now : Int) (today : Nat) (publish : QueueItem → Option Nat) :
    List QueueItem → Store → SchedState → QueueRunResult
  | [], db, s => ⟨db, s, 0, 0⟩
  | item :: rest, db, s =>
    if (can_post_today today s).2 = false then ⟨db, (can_post_today today s).1, 0, 0⟩
    else
      match publish item with
      | some tid =>
        let r := pcqLoop now today publish rest
          (mark_content_posted now db item.id tid)
          (increment_daily_post_count today (can_post_today today s).1)
        ⟨r.db, r.sched, r.published + 1, r.attempted + 1⟩
      | none =>
        let r := pcqLoop now today publish rest db (can_post_today today s).1
        ⟨r.db, r.sched, r.published, r.attempted + 1⟩

/-- `ContentScheduler._process_content_queue` (one sequential pass): an
initial gate check, then the pending items in scheduled order through
the per-item loop. -/
def process_content_queue (now : Int) (today : Nat) (publish : QueueItem → Option Nat)
    (db : Store) (s : SchedState) : QueueRunResult :=
  if (can_post_today today s).2 = false then ⟨db, (can_post_today today s).1, 0, 0⟩
  else pcqLoop now today publish (get_pending_content now db) db (can_post_today today s).1

/-! ## Helper lemmas -/

set_option maxRecDepth 100000

theorem truncGreedy_length_le (limit : Nat) :
    ∀ (l : List Str) (acc : Str), acc.length ≤ limit →
      (truncGreedy limit l acc).length ≤ limit := by
  intro l
  induction l with
  | nil => intro acc h; simpa [truncGreedy] using h
  | cons s rest ih =>
    intro acc h
    rw [truncGreedy]
    split
    · rename_i hfit
      apply ih
      split
      · omega
      · simp only [List.length_append, List.length_cons]
        omega
    · exact h

theorem truncateTweet_length_le (t : Str) : (truncateTweet t).length ≤ 280 := by
  have hs := truncGreedy_length_le 277 (sentSplit t) [] (by simp)
  have hw := truncGreedy_length_le 277 (wordsOf t) [] (by simp)
  rw [truncateTweet]
  split
  · assumption
  · split
    · split
      · simp only [ellipsis, List.length_append, List.length_take, List.length_cons,
          List.length_nil]
        omega
      · simp only [ellipsis, List.length_append, List.length_cons, List.length_nil]
        omega
    · simp only [ellipsis, List.length_append, List.length_cons, List.length_nil]
      omega

theorem validateTweets_mem_bounds :
    ∀ (ts : List Str) (t : Str), t ∈ validateTweets ts →
      50 ≤ t.length ∧ t.length ≤ 280 := by
  have aux : ∀ (ts : List Str) (acc : List Str),
      (∀ t ∈ acc, 50 ≤ t.length ∧ t.length ≤ 280) →
      ∀ t ∈ ts.foldl
        (fun acc tw =>
          let t := pyStrip tw
          let t2 := if 280 < t.length then truncateTweet t else t
          if t2.length < 50 then acc else acc ++ [t2]) acc,
        50 ≤ t.length ∧ t.length ≤ 280 := by
    intro ts
    induction ts with
    | nil => intro acc hacc t ht; exact hacc t (by simpa using ht)
    | cons tw rest ih =>
      intro acc hacc t ht
      rw [List.foldl_cons] at ht
      refine ih _ ?_ t ht
      intro u hu
      dsimp only at hu
      split at hu
      · split at hu
        · exact hacc u hu
        · rename_i hkeep
          rcases List.mem_append.mp hu with hu | hu
          · exact hacc u hu
          · have hequ : u = truncateTweet (pyStrip tw) := by simpa using hu
            exact ⟨by rw [hequ]; omega, by rw [hequ]; exact truncateTweet_length_le _⟩
      · split at hu
        · exact hacc u hu
        · rename_i h280 hkeep
          rcases List.mem_append.mp hu with hu | hu
          · exact hacc u hu
          · have hequ : u = pyStrip tw := by simpa using hu
            exact ⟨by rw [hequ]; omega, by rw [hequ]; omega⟩
  intro ts t ht
  exact aux ts [] (by simp) t ht

/-! ## C1: lengths of the segments produced by content validation -/

/-- C1 (amended).  Every segment that survives validation in
`_clean_and_validate_content` has length at least 50 and at most 280;
when zero segments survive, the call returns no content; and the
returned output is either a single surviving segment or the blank-line
join of the decorated surviving segments (whose decoration can push a
segment of the output past 280 characters). -/
theorem C1_amended_segment_bounds (content : Str) :
    (∀ t ∈ validateTweets (splitIntoTweets (normWs (pyStrip content))),
        50 ≤ t.length ∧ t.length ≤ 280)
  ∧ (validateTweets (splitIntoTweets (normWs (pyStrip content))) = [] →
        clean_and_validate_content content = none)
  ∧ (∀ out, clean_and_validate_content content = some out →
        out ∈ validateTweets (splitIntoTweets (normWs (pyStrip content)))
        ∨ out = joinNlNl (decorate (validateTweets (splitIntoTweets (normWs (pyStrip content)))))) := by
  refine ⟨fun t ht => validateTweets_mem_bounds _ t ht, ?_, ?_⟩
  · intro h
    rw [clean_and_validate_content]
    split
    · rfl
    · split
      · rfl
      · rw [h]
  · intro out hout
    rw [clean_and_validate_content] at hout
    split at hout
    · exact absurd hout (by simp)
    · split at hout
      · exact absurd hout (by simp)
      · rcases hm : validateTweets (splitIntoTweets (normWs (pyStrip content))) with
          _ | ⟨a, _ | ⟨b, tl⟩⟩ <;> rw [hm] at hout
        · exact absurd hout (by simp)
        · left
          have : a = out := by simpa using hout
          simp [← this]
        · right
          simpa using hout.symm

/-- C1 witness: a too-short response is rejected outright. -/
theorem C1_amended_witness : clean_and_validate_content ('h' :: 'i' :: []) = none :=
  (C1_amended_segment_bounds ('h' :: 'i' :: [])).2.1 (by decide)

/-- A raw response of a 280-character paragraph and a 50-character
paragraph: both survive validation, so the output is a decorated
thread. -/
def c1ex : Str := List.replicate 280 'a' ++ '\n' :: '\n' :: List.replicate 50 'b'

/-- C1 counterexample.  The claim that every segment of the returned
output is at most 280 characters fails: on `c1ex` the call returns
content whose first blank-line-separated segment has 285 characters
(280 plus the space and the four-character thread marker). -/
theorem C1_counterexample :
    (clean_and_validate_content c1ex).isSome = true
  ∧ ((splitOnNlNl ((clean_and_validate_content c1ex).getD [])).any
      (fun seg => decide (280 < seg.length))) = true := by decide

/-! ## C7: the truncation contract -/

/-- C7.  `_truncate_tweet` always returns at most 280 characters; a
tweet of at most 280 characters is returned unchanged (so truncation is
idempotent); and an over-280 tweet is returned ending in an ellipsis,
preferring the greedy run of leading sentences within 277 characters,
then the greedy run of leading words within 277 characters, and as a
last resort the first 277 characters plus the ellipsis. -/
theorem C7_truncate_contract (t : Str) :
    (truncateTweet t).length ≤ 280
  ∧ (t.length ≤ 280 → truncateTweet t = t)
  ∧ (280 < t.length →
      (((truncGreedy 277 (sentSplit t) []).isEmpty = false →
          truncateTweet t = truncGreedy 277 (sentSplit t) [] ++ ellipsis)
        ∧ ((truncGreedy 277 (sentSplit t) []).isEmpty = true →
            (truncGreedy 277 (wordsOf t) []).isEmpty = false →
            truncateTweet t = truncGreedy 277 (wordsOf t) [] ++ ellipsis)
        ∧ ((truncGreedy 277 (sentSplit t) []).isEmpty = true →
            (truncGreedy 277 (wordsOf t) []).isEmpty = true →
            truncateTweet t = t.take 277 ++ ellipsis)
        ∧ ∃ p, truncateTweet t = p ++ ellipsis)) := by
  refine ⟨truncateTweet_length_le t, ?_, ?_⟩
  · intro h
    rw [truncateTweet, if_pos h]
  · intro h
    rw [truncateTweet, if_neg (by omega)]
    by_cases hs : (truncGreedy 277 (sentSplit t) []).isEmpty = true
    · by_cases hw : (truncGreedy 277 (wordsOf t) []).isEmpty = true
      · rw [if_pos hs, if_pos hw]
        exact ⟨fun hc => (by rw [hs] at hc; cases hc),
          fun _ hwf => (by rw [hw] at hwf; cases hwf), fun _ _ => rfl,
          ⟨t.take 277, rfl⟩⟩
      · rw [if_pos hs, if_neg hw]
        exact ⟨fun hc => (by rw [hs] at hc; cases hc), fun _ _ => rfl,
          fun _ hw2 => absurd hw2 hw, ⟨truncGreedy 277 (wordsOf t) [], rfl⟩⟩
    · rw [if_neg hs]
      exact ⟨fun _ => rfl, fun hs2 => absurd hs2 hs,
        fun hs2 _ => absurd hs2 hs, ⟨truncGreedy 277 (sentSplit t) [], rfl⟩⟩

/-- C7 witness: a 60-character tweet is unchanged, a 300-character
tweet is cut to an ellipsis-terminated result. -/
theorem C7_truncate_witness :
    truncateTweet (List.replicate 60 'h') = List.replicate 60 'h'
  ∧ (∃ p, truncateTweet (List.replicate 300 'a') = p ++ ellipsis) :=
  ⟨(C7_truncate_contract (List.replicate 60 'h')).2.1 (by decide),
    ((C7_truncate_contract (List.replicate 300 'a')).2.2 (by decide)).2.2.2⟩

/-! ## C3: the thread classifier against the generator's marker -/

/-- C3 (code-bug evidence).  The generator's thread formatting appends
the four-character double-encoded marker `genThreadMarker` after the
first segment (second conjunct shows the exact decorated segments), yet
a single-paragraph text carrying exactly that marker — the glyph the
claim's condition (c) refers to — is classified as a single post,
because the classifier tests for the single code point U+1F9F5, which
never occurs in the marker (third conjunct). -/
theorem C3_marker_mismatch :
    is_thread_content (List.replicate 60 'x' ++ ' ' :: genThreadMarker) = false
  ∧ decorate [List.replicate 60 'x', List.replicate 60 'y']
      = [List.replicate 60 'x' ++ ' ' :: genThreadMarker,
          '2' :: '/' :: '2' :: ' ' :: List.replicate 60 'y']
  ∧ genThreadMarker.all (fun c => !(c = threadEmoji)) = true := by decide

/-! ## Subject selection: order lemmas -/

theorem lpLt_irrefl (a : Option Int) : lpLt a a = false := by
  cases a <;> simp [lpLt]

theorem lpLt_asymm {a b : Option Int} (h : lpLt a b = true) : lpLt b a = false := by
  cases a <;> cases b <;> simp [lpLt] at h ⊢
  omega

theorem lpLt_lt_of_not_lt {a b c : Option Int} (h1 : lpLt a b = true)
    (h2 : lpLt c b = false) : lpLt a c = true := by
  cases a <;> cases b <;> cases c <;> simp [lpLt] at h1 h2 ⊢
  omega

theorem minByLastPosted_eq_none (l : List Project) :
    minByLastPosted l = none ↔ l = [] := by
  cases l with
  | nil => simp [minByLastPosted]
  | cons p rest =>
    cases hm : minByLastPosted rest with
    | none => simp [minByLastPosted, hm]
    | some q =>
      simp only [minByLastPosted, hm]
      split
      · simp
      · simp

theorem minByLastPosted_mem :
    ∀ (l : List Project) (p : Project), minByLastPosted l = some p → p ∈ l := by
  intro l
  induction l with
  | nil => intro p h; simp [minByLastPosted] at h
  | cons a rest ih =>
    intro p h
    cases hm : minByLastPosted rest with
    | none =>
      simp only [minByLastPosted, hm] at h
      have hap : a = p := by simpa using h
      subst hap
      exact List.mem_cons_self a rest
    | some q =>
      simp only [minByLastPosted, hm] at h
      split at h
      · have hqp : q = p := by simpa using h
        exact List.mem_cons_of_mem a (hqp ▸ ih q hm)
      · have hap : a = p := by simpa using h
        subst hap
        exact List.mem_cons_self a rest

theorem minByLastPosted_min :
    ∀ (l : List Project) (p : Project), minByLastPosted l = some p →
      ∀ q ∈ l, lpLt q.last_posted p.last_posted = false := by
  intro l
  induction l with
  | nil => intro p _ q hq; simp at hq
  | cons a rest ih =>
    intro p h q hq
    cases hm : minByLastPosted rest with
    | none =>
      have hrest : rest = [] := (minByLastPosted_eq_none rest).mp hm
      subst hrest
      simp only [minByLastPosted] at h
      have hap : a = p := by simpa using h
      subst hap
      have hqa : q = a := by simpa using hq
      subst hqa
      exact lpLt_irrefl _
    | some m =>
      simp only [minByLastPosted, hm] at h
      split at h
      · rename_i hlt
        have hmp : m = p := by simpa using h
        subst hmp
        rcases List.mem_cons.mp hq with rfl | hq'
        · exact lpLt_asymm hlt
        · exact ih m hm q hq'
      · rename_i hnlt
        have hap : a = p := by simpa using h
        subst hap
        rcases List.mem_cons.mp hq with rfl | hq'
        · exact lpLt_irrefl _
        · have h1 := ih m hm q hq'
          by_contra hqa
          rw [Bool.not_eq_false] at hqa
          have h2 := lpLt_lt_of_not_lt hqa (by rwa [Bool.not_eq_true] at hnlt)
          rw [h2] at h1
          cases h1

/-! ## C2: the 24-hour cooldown in subject selection -/

/-- A catalog whose single active subject was posted within the last 24
hours of the probe time 100000. -/
def c2db : Store := ⟨[⟨1, some 99000, 1, true⟩], [], []⟩

/-- C2 counterexample.  An active subject exists, yet selection answers
with no subject, because every active subject was posted within the
last 24 hours: the claim that selection never answers so is false. -/
theorem C2_counterexample :
    (c2db.projects.any (fun p => p.is_active)) = true
  ∧ get_next_project_to_post 100000 c2db = none := by decide

/-- C2 (amended).  `get_next_project_to_post` returns no subject exactly
when no active subject has a null `last_posted` or a `last_posted`
older than the 24-hour cutoff; and the returned subject is an eligible
subject with the oldest `last_posted` among the eligible ones (nulls
first).  In particular the 24-hour cooldown is enforced: a catalog in
which every active subject was posted within the last 24 hours yields
no subject. -/
theorem C2_amended_selection (now : Int) (db : Store) :
    (get_next_project_to_post now db = none ↔ ∀ p ∈ db.projects, eligible now p = false)
  ∧ ∀ p, get_next_project_to_post now db = some p →
      p ∈ db.projects ∧ eligible now p = true
      ∧ ∀ q ∈ db.projects, eligible now q = true →
          lpLt q.last_posted p.last_posted = false := by
  constructor
  · rw [get_next_project_to_post, minByLastPosted_eq_none, List.filter_eq_nil_iff]
    simp
  · intro p h
    rw [get_next_project_to_post] at h
    have hmem := minByLastPosted_mem _ p h
    have hmin := minByLastPosted_min _ p h
    rw [List.mem_filter] at hmem
    exact ⟨hmem.1, hmem.2, fun q hq he => hmin q (List.mem_filter.mpr ⟨hq, he⟩)⟩

/-- A catalog with two active subjects, both outside the cooldown. -/
def c2wdb : Store := ⟨[⟨1, some 0, 3, true⟩, ⟨2, some 100, 4, true⟩], [], []⟩

/-- C2 witness: on `c2wdb` the subject with the oldest `last_posted` is
selected and is eligible. -/
theorem C2_amended_witness :
    get_next_project_to_post 100000 c2wdb = some ⟨1, some 0, 3, true⟩
  ∧ eligible 100000 (⟨1, some 0, 3, true⟩ : Project) = true :=
  ⟨by decide, ((C2_amended_selection 100000 c2wdb).2 ⟨1, some 0, 3, true⟩ (by decide)).2.1⟩

/-! ## C9: never-posted subjects win -/

/-- C9.  Whenever some active subject has a null `last_posted`,
selection returns a subject, that subject is active, belongs to the
catalog, and has a null `last_posted` — regardless of catalog order. -/
theorem C9_null_first (now : Int) (db : Store)
    (h : ∃ p ∈ db.projects, p.is_active = true ∧ p.last_posted = none) :
    ∃ q, get_next_project_to_post now db = some q
      ∧ q.last_posted = none ∧ q.is_active = true ∧ q ∈ db.projects := by
  obtain ⟨p, hp, hact, hnull⟩ := h
  have hel : eligible now p = true := by simp [eligible, hact, hnull]
  have hfil : p ∈ db.projects.filter (eligible now) := List.mem_filter.mpr ⟨hp, hel⟩
  rcases hres : get_next_project_to_post now db with _ | q
  · rw [get_next_project_to_post, minByLastPosted_eq_none] at hres
    rw [hres] at hfil
    simp at hfil
  · have hres' : minByLastPosted (db.projects.filter (eligible now)) = some q := by
      rw [get_next_project_to_post] at hres
      exact hres
    have hqmem := List.mem_filter.mp (minByLastPosted_mem _ q hres')
    have hmin := minByLastPosted_min _ q hres' p hfil
    refine ⟨q, rfl, ?_, ?_, hqmem.1⟩
    · rw [hnull] at hmin
      rcases hql : q.last_posted with _ | t
      · rfl
      · rw [hql] at hmin
        simp [lpLt] at hmin
    · have := hqmem.2
      rw [eligible, Bool.and_eq_true] at this
      exact this.1

/-- A catalog where the never-posted subject comes second. -/
def c9db : Store := ⟨[⟨1, some 50, 2, true⟩, ⟨2, none, 0, true⟩], [], []⟩

/-- C9 witness: on `c9db` the never-posted subject is selected although
a posted subject precedes it in the catalog. -/
theorem C9_witness :
    ∃ q, get_next_project_to_post 100000 c9db = some q
      ∧ q.last_posted = none ∧ q.is_active = true ∧ q ∈ c9db.projects :=
  C9_null_first 100000 c9db ⟨⟨2, none, 0, true⟩, by decide, rfl, rfl⟩

/-! ## C8: the counter-versus-rows invariant -/

theorem mark_preserves_postCountInv (now : Int) (db : Store) (qid tid : Nat)
    (h : postCountInv db) : postCountInv (mark_content_posted now db qid tid) := by
  rcases hf : db.queue.find? (fun q => q.id == qid) with _ | qc
  · simp only [mark_content_posted, hf]
    exact h
  · intro p' hp'
    simp only [mark_content_posted, hf] at hp' ⊢
    rcases List.mem_map.mp hp' with ⟨p, hp, hfp⟩
    by_cases hid : (p.id == qc.project_id) = true
    · rw [if_pos hid] at hfp
      have hideq : p.id = qc.project_id := by simpa using hid
      rw [← hfp]
      simp only [List.filter_append, List.length_append]
      have hrec : (qc.project_id == p.id) = true := by simp [hideq]
      simp [hrec, h p hp]
    · rw [if_neg hid] at hfp
      rw [← hfp]
      simp only [List.filter_append, List.length_append]
      have hrec : (qc.project_id == p.id) = false := by
        simp at hid ⊢
        omega
      simp [hrec, h p hp]

theorem weekly_maintenance_count_ge (now : Int) (db : Store) (h : postCountInv db) :
    ∀ p ∈ (weekly_maintenance now db).projects,
      ((weekly_maintenance now db).posted.filter
          (fun r => r.project_id == p.id)).length ≤ p.post_count := by
  intro p hp
  simp only [weekly_maintenance] at hp ⊢
  rw [h p hp]
  exact List.Sublist.length_le (List.Sublist.filter _ (List.filter_sublist _))

/-- C8 (amended).  `mark_content_posted` preserves the equality between
a subject's counter and the number of posted rows referencing it, but
the weekly purge deletes old posted rows without adjusting counters, so
after a purge the row count is only bounded above by the counter (the
counter records all-time posts). -/
theorem C8_amended_invariant (now : Int) (db : Store) (qid tid : Nat)
    (h : postCountInv db) :
    postCountInv (mark_content_posted now db qid tid)
  ∧ ∀ p ∈ (weekly_maintenance now db).projects,
      ((weekly_maintenance now db).posted.filter
          (fun r => r.project_id == p.id)).length ≤ p.post_count :=
  ⟨mark_preserves_postCountInv now db qid tid h,
    weekly_maintenance_count_ge now db h⟩

/-- A store satisfying the counter invariant with one 90-day-old posted
row. -/
def c8db : Store := ⟨[⟨1, some 0, 1, true⟩], [⟨1, ['z'], 5, 0⟩], []⟩

/-- C8 counterexample.  The weekly purge does not preserve the claimed
equality: on `c8db` the invariant holds before the purge and fails
after it. -/
theorem C8_counterexample :
    postCountInv c8db ∧ ¬ postCountInv (weekly_maintenance 8000000 c8db) := by
  decide

/-- A store satisfying the invariant, with a queued item. -/
def c8wdb : Store :=
  ⟨[⟨1, some 0, 1, true⟩], [⟨1, ['z'], 5, 0⟩], [⟨4, 1, ['w'], 0, 0⟩]⟩

/-- C8 witness: posting the queued item of `c8wdb` preserves the
invariant. -/
theorem C8_amended_witness : postCountInv (mark_content_posted 7 c8wdb 4 9) :=
  (C8_amended_invariant 7 c8wdb 4 9 (by decide)).1

/-! ## C10: marking an absent queue row is a no-op -/

/-- C10.  When no queue row has the given id, `mark_content_posted`
returns the store unchanged: no posted row is inserted, no subject's
timestamp or counter moves, nothing is deleted, and (being total) it
raises nothing. -/
theorem C10_missing_queue_noop (now : Int) (db : Store) (qid tid : Nat)
    (h : ∀ q ∈ db.queue, q.id ≠ qid) :
    mark_content_posted now db qid tid = db := by
  have hf : db.queue.find? (fun q => q.id == qid) = none := by
    rw [List.find?_eq_none]
    intro q hq
    simpa using h q hq
  simp [mark_content_posted, hf]

/-- A store whose only queue row has id 5. -/
def c10db : Store := ⟨[⟨1, none, 0, true⟩], [], [⟨5, 1, ['w'], 0, 0⟩]⟩

/-- C10 witness: marking the absent queue id 7 leaves `c10db`
unchanged. -/
theorem C10_witness : mark_content_posted 3 c10db 7 9 = c10db :=
  C10_missing_queue_noop 3 c10db 7 9 (by decide)

/-! ## C4: the lazy daily gate -/

/-- C4.  `_can_post_today` answers true exactly when the (lazily reset)
counter is below the cap; a date change zeroes the counter at the
moment of the check, a same-day check leaves it; in particular any
count reached on day d is observed as zero by the first check on day
d + 1, which then answers true. -/
theorem C4_daily_gate (today : Nat) (s : SchedState) :
    ((can_post_today today s).2 = true ↔
        (can_post_today today s).1.daily_post_count < max_posts_per_day)
  ∧ (s.last_post_date ≠ some today → (can_post_today today s).1.daily_post_count = 0)
  ∧ (s.last_post_date = some today →
        (can_post_today today s).1.daily_post_count = s.daily_post_count)
  ∧ (∀ d, s.last_post_date = some d → today = d + 1 →
        (can_post_today today s).1.daily_post_count = 0
        ∧ (can_post_today today s).2 = true) := by
  refine ⟨by simp [can_post_today], ?_, ?_, ?_⟩
  · intro h
    simp [can_post_today, canPostUpd, h]
  · intro h
    simp [can_post_today, canPostUpd, h]
  · intro d hd htoday
    subst htoday
    have hne : s.last_post_date ≠ some (d + 1) := by
      rw [hd]
      simp
    constructor
    · simp [can_post_today, canPostUpd, hne]
    · simp [can_post_today, canPostUpd, hne, max_posts_per_day]

/-- C4 witness: five posts on day 3, first check on day 4 sees a zero
counter and a true gate. -/
theorem C4_daily_gate_witness :
    (can_post_today 4 ⟨5, some 3⟩).1.daily_post_count = 0
  ∧ (can_post_today 4 ⟨5, some 3⟩).2 = true :=
  (C4_daily_gate 4 ⟨5, some 3⟩).2.2.2 3 rfl rfl

/-! ## C5: the drain pass respects the cap -/

theorem pcqLoop_spec (now : Int) (today : Nat) (publish : QueueItem → Option Nat) :
    ∀ (items : List QueueItem) (db : Store) (s : SchedState),
      s.last_post_date = some today →
      ((pcqLoop now today publish items db s).sched.last_post_date = some today
      ∧ (pcqLoop now today publish items db s).sched.daily_post_count
          = s.daily_post_count + (pcqLoop now today publish items db s).published
      ∧ (pcqLoop now today publish items db s).published
          + min s.daily_post_count max_posts_per_day ≤ max_posts_per_day
      ∧ ((pcqLoop now today publish items db s).attempted < items.length →
          max_posts_per_day ≤ s.daily_post_count
            + (pcqLoop now today publish items db s).published)) := by
  intro items
  induction items with
  | nil =>
    intro db s hs
    refine ⟨hs, by simp [pcqLoop], by simp [pcqLoop], ?_⟩
    intro h
    simp [pcqLoop] at h
  | cons item rest ih =>
    intro db s hs
    have hupd : canPostUpd today s = s := by simp [canPostUpd, hs]
    have hg1 : (can_post_today today s).1 = s := by simp [can_post_today, hupd]
    by_cases hgate : s.daily_post_count < max_posts_per_day
    · have hg2 : (can_post_today today s).2 = true := by
        simp [can_post_today, hupd, hgate]
      cases hpub : publish item with
      | some tid =>
        have hinc : increment_daily_post_count today (can_post_today today s).1
            = ⟨s.daily_post_count + 1, some today⟩ := by
          rw [hg1]
          simp [increment_daily_post_count, hupd, hs]
        have heq : pcqLoop now today publish (item :: rest) db s
            = ⟨(pcqLoop now today publish rest (mark_content_posted now db item.id tid)
                  ⟨s.daily_post_count + 1, some today⟩).db,
               (pcqLoop now today publish rest (mark_content_posted now db item.id tid)
                  ⟨s.daily_post_count + 1, some today⟩).sched,
               (pcqLoop now today publish rest (mark_content_posted now db item.id tid)
                  ⟨s.daily_post_count + 1, some today⟩).published + 1,
               (pcqLoop now today publish rest (mark_content_posted now db item.id tid)
                  ⟨s.daily_post_count + 1, some today⟩).attempted + 1⟩ := by
          simp only [pcqLoop]
          rw [if_neg (by simp [hg2]), hpub]
          dsimp only
          rw [hinc]
        obtain ⟨ih1, ih2, ih3, ih4⟩ :=
          ih (mark_content_posted now db item.id tid) ⟨s.daily_post_count + 1, some today⟩ rfl
        dsimp only at ih2 ih3 ih4
        rw [heq]
        dsimp only
        refine ⟨ih1, by omega, by omega, ?_⟩
        intro hlt
        rw [List.length_cons] at hlt
        have := ih4 (by omega)
        omega
      | none =>
        have heq : pcqLoop now today publish (item :: rest) db s
            = ⟨(pcqLoop now today publish rest db s).db,
               (pcqLoop now today publish rest db s).sched,
               (pcqLoop now today publish rest db s).published,
               (pcqLoop now today publish rest db s).attempted + 1⟩ := by
          simp only [pcqLoop]
          rw [if_neg (by simp [hg2]), hpub]
          dsimp only
          rw [hg1]
        obtain ⟨ih1, ih2, ih3, ih4⟩ := ih db s hs
        rw [heq]
        dsimp only
        refine ⟨ih1, ih2, ih3, ?_⟩
        intro hlt
        rw [List.length_cons] at hlt
        exact ih4 (by omega)
    · have hg2 : (can_post_today today s).2 = false := by
        simp [can_post_today, hupd]
        omega
      have heq : pcqLoop now today publish (item :: rest) db s = ⟨db, s, 0, 0⟩ := by
        simp only [pcqLoop]
        rw [if_pos hg2, hg1]
      rw [heq]
      dsimp only
      refine ⟨hs, by omega, by omega, ?_⟩
      intro _
      omega

theorem canPostUpd_date (today : Nat) (s : SchedState) :
    (canPostUpd today s).last_post_date = some today := by
  rw [canPostUpd]
  split
  · rfl
  · rename_i h
    exact not_not.mp h

theorem pcqLoop_capped (now : Int) (today : Nat) (publish : QueueItem → Option Nat) :
    ∀ (items : List QueueItem) (db : Store) (s : SchedState),
      s.last_post_date = some today → max_posts_per_day ≤ s.daily_post_count →
      pcqLoop now today publish items db s = ⟨db, s, 0, 0⟩ := by
  intro items db s hs hcap
  cases items with
  | nil => simp [pcqLoop]
  | cons item rest =>
    have hupd : canPostUpd today s = s := by simp [canPostUpd, hs]
    have hg2 : (can_post_today today s).2 = false := by
      simp [can_post_today, hupd]
      omega
    simp only [pcqLoop]
    rw [if_pos hg2]
    simp [can_post_today, hupd]

theorem pcqLoop_append (now : Int) (today : Nat) (publish : QueueItem → Option Nat) :
    ∀ (l1 l2 : List QueueItem) (db : Store) (s : SchedState),
      ((pcqLoop now today publish (l1 ++ l2) db s).attempted
          = (pcqLoop now today publish l1 db s).attempted
            + (pcqLoop now today publish l2 (pcqLoop now today publish l1 db s).db
                (pcqLoop now today publish l1 db s).sched).attempted)
    ∧ ((pcqLoop now today publish (l1 ++ l2) db s).published
          = (pcqLoop now today publish l1 db s).published
            + (pcqLoop now today publish l2 (pcqLoop now today publish l1 db s).db
                (pcqLoop now today publish l1 db s).sched).published)
    ∧ ((pcqLoop now today publish (l1 ++ l2) db s).db
          = (pcqLoop now today publish l2 (pcqLoop now today publish l1 db s).db
              (pcqLoop now today publish l1 db s).sched).db)
    ∧ ((pcqLoop now today publish (l1 ++ l2) db s).sched
          = (pcqLoop now today publish l2 (pcqLoop now today publish l1 db s).db
              (pcqLoop now today publish l1 db s).sched).sched) := by
  intro l1
  induction l1 with
  | nil =>
    intro l2 db s
    refine ⟨?_, ?_, ?_, ?_⟩ <;> simp [pcqLoop]
  | cons item l1' ih =>
    intro l2 db s
    by_cases hgate : (can_post_today today s).2 = false
    · have hdate : (can_post_today today s).1.last_post_date = some today :=
        canPostUpd_date today s
      have hcap : max_posts_per_day ≤ (can_post_today today s).1.daily_post_count := by
        have h := hgate
        simp [can_post_today] at h ⊢
        omega
      have hL : pcqLoop now today publish ((item :: l1') ++ l2) db s
          = ⟨db, (can_post_today today s).1, 0, 0⟩ := by
        simp only [List.cons_append, pcqLoop]
        rw [if_pos hgate]
      have h1 : pcqLoop now today publish (item :: l1') db s
          = ⟨db, (can_post_today today s).1, 0, 0⟩ := by
        simp only [pcqLoop]
        rw [if_pos hgate]
      rw [hL, h1]
      dsimp only
      rw [pcqLoop_capped now today publish l2 db (can_post_today today s).1 hdate hcap]
      refine ⟨rfl, rfl, rfl, rfl⟩
    · have hgT : (can_post_today today s).2 = true := by
        rw [Bool.not_eq_false] at hgate
        exact hgate
      cases hpub : publish item with
      | some tid =>
        have hL : pcqLoop now today publish ((item :: l1') ++ l2) db s
            = ⟨(pcqLoop now today publish (l1' ++ l2)
                  (mark_content_posted now db item.id tid)
                  (increment_daily_post_count today (can_post_today today s).1)).db,
               (pcqLoop now today publish (l1' ++ l2)
                  (mark_content_posted now db item.id tid)
                  (increment_daily_post_count today (can_post_today today s).1)).sched,
               (pcqLoop now today publish (l1' ++ l2)
                  (mark_content_posted now db item.id tid)
                  (increment_daily_post_count today (can_post_today today s).1)).published + 1,
               (pcqLoop now today publish (l1' ++ l2)
                  (mark_content_posted now db item.id tid)
                  (increment_daily_post_count today (can_post_today today s).1)).attempted + 1⟩ := by
          simp only [List.cons_append, pcqLoop]
          rw [if_neg (by simp [hgT]), hpub]
          rfl
        have h1 : pcqLoop now today publish (item :: l1') db s
            = ⟨(pcqLoop now today publish l1'
                  (mark_content_posted now db item.id tid)
                  (increment_daily_post_count today (can_post_today today s).1)).db,
               (pcqLoop now today publish l1'
                  (mark_content_posted now db item.id tid)
                  (increment_daily_post_count today (can_post_today today s).1)).sched,
               (pcqLoop now today publish l1'
                  (mark_content_posted now db item.id tid)
                  (increment_daily_post_count today (can_post_today today s).1)).published + 1,
               (pcqLoop now today publish l1'
                  (mark_content_posted now db item.id tid)
                  (increment_daily_post_count today (can_post_today today s).1)).attempted + 1⟩ := by
          simp only [pcqLoop]
          rw [if_neg (by simp [hgT]), hpub]
        obtain ⟨ihA, ihP, ihD, ihS⟩ := ih l2 (mark_content_posted now db item.id tid)
          (increment_daily_post_count today (can_post_today today s).1)
        rw [hL, h1]
        dsimp only
        exact ⟨by omega, by omega, ihD, ihS⟩
      | none =>
        have hL : pcqLoop now today publish ((item :: l1') ++ l2) db s
            = ⟨(pcqLoop now today publish (l1' ++ l2) db (can_post_today today s).1).db,
               (pcqLoop now today publish (l1' ++ l2) db (can_post_today today s).1).sched,
               (pcqLoop now today publish (l1' ++ l2) db (can_post_today today s).1).published,
               (pcqLoop now today publish (l1' ++ l2) db
                  (can_post_today today s).1).attempted + 1⟩ := by
          simp only [List.cons_append, pcqLoop]
          rw [if_neg (by simp [hgT]), hpub]
          rfl
        have h1 : pcqLoop now today publish (item :: l1') db s
            = ⟨(pcqLoop now today publish l1' db (can_post_today today s).1).db,
               (pcqLoop now today publish l1' db (can_post_today today s).1).sched,
               (pcqLoop now today publish l1' db (can_post_today today s).1).published,
               (pcqLoop now today publish l1' db (can_post_today today s).1).attempted + 1⟩ := by
          simp only [pcqLoop]
          rw [if_neg (by simp [hgT]), hpub]
        obtain ⟨ihA, ihP, ihD, ihS⟩ := ih l2 db (can_post_today today s).1
        rw [hL, h1]
        dsimp only
        exact ⟨by omega, ihP, ihD, ihS⟩

/-- C5.  In one sequential queue-drain pass the gate is re-evaluated
before each item, so: the final counter is the (lazily reset) initial
counter plus the number of successful publishes; the successes never
push the counter past the cap; when the counter entered the pass within
the cap it leaves the pass within the cap; the pass stops short of the
pending list only when the cap has been reached; a pass entered with
the counter at the cap submits nothing and changes nothing; from any
loop configuration whose counter has reached the cap, no remaining item
is submitted to the publisher (the loop returns immediately with zero
attempts); and whenever a prefix of the pending list drives the counter
to the cap, the whole pass coincides with the run on that prefix — the
remaining items are never submitted, published, or recorded. -/
theorem C5_drain_cap (now : Int) (today : Nat) (publish : QueueItem → Option Nat)
    (db : Store) (s : SchedState) :
    ((process_content_queue now today publish db s).sched.daily_post_count
        = (canPostUpd today s).daily_post_count
          + (process_content_queue now today publish db s).published)
  ∧ ((process_content_queue now today publish db s).published
        + min (canPostUpd today s).daily_post_count max_posts_per_day
      ≤ max_posts_per_day)
  ∧ ((canPostUpd today s).daily_post_count ≤ max_posts_per_day →
      (process_content_queue now today publish db s).sched.daily_post_count
        ≤ max_posts_per_day)
  ∧ ((process_content_queue now today publish db s).attempted
        < (get_pending_content now db).length →
      max_posts_per_day ≤ (canPostUpd today s).daily_post_count
        + (process_content_queue now today publish db s).published)
  ∧ (max_posts_per_day ≤ (canPostUpd today s).daily_post_count →
      process_content_queue now today publish db s = ⟨db, canPostUpd today s, 0, 0⟩)
  ∧ (∀ (items : List QueueItem) (db' : Store) (s' : SchedState),
      s'.last_post_date = some today → max_posts_per_day ≤ s'.daily_post_count →
      pcqLoop now today publish items db' s' = ⟨db', s', 0, 0⟩)
  ∧ (∀ l1 l2 : List QueueItem, get_pending_content now db = l1 ++ l2 →
      max_posts_per_day
          ≤ (pcqLoop now today publish l1 db (canPostUpd today s)).sched.daily_post_count →
      (process_content_queue now today publish db s).attempted
          = (pcqLoop now today publish l1 db (canPostUpd today s)).attempted
      ∧ (process_content_queue now today publish db s).published
          = (pcqLoop now today publish l1 db (canPostUpd today s)).published
      ∧ (process_content_queue now today publish db s).db
          = (pcqLoop now today publish l1 db (canPostUpd today s)).db) := by
  have hupd : (canPostUpd today s).last_post_date = some today := canPostUpd_date today s
  have hmain :
      ((process_content_queue now today publish db s).sched.daily_post_count
          = (canPostUpd today s).daily_post_count
            + (process_content_queue now today publish db s).published)
    ∧ ((process_content_queue now today publish db s).published
          + min (canPostUpd today s).daily_post_count max_posts_per_day
        ≤ max_posts_per_day)
    ∧ ((canPostUpd today s).daily_post_count ≤ max_posts_per_day →
        (process_content_queue now today publish db s).sched.daily_post_count
          ≤ max_posts_per_day)
    ∧ ((process_content_queue now today publish db s).attempted
          < (get_pending_content now db).length →
        max_posts_per_day ≤ (canPostUpd today s).daily_post_count
          + (process_content_queue now today publish db s).published) := by
    by_cases hgate : (canPostUpd today s).daily_post_count < max_posts_per_day
    · have hg2 : (can_post_today today s).2 = true := by
        simp [can_post_today, hgate]
      have heq : process_content_queue now today publish db s
          = pcqLoop now today publish (get_pending_content now db) db (canPostUpd today s) := by
        rw [process_content_queue, if_neg (by simp [hg2])]
        rfl
      obtain ⟨h1, h2, h3, h4⟩ :=
        pcqLoop_spec now today publish (get_pending_content now db) db (canPostUpd today s) hupd
      rw [heq]
      refine ⟨h2, h3, ?_, h4⟩
      intro _
      rw [h2]
      omega
    · have hg2 : (can_post_today today s).2 = false := by
        simp [can_post_today]
        omega
      have heq : process_content_queue now today publish db s
          = ⟨db, canPostUpd today s, 0, 0⟩ := by
        rw [process_content_queue, if_pos hg2]
        rfl
      rw [heq]
      dsimp only
      refine ⟨by omega, by omega, fun h => by omega, fun h => by omega⟩
  refine ⟨hmain.1, hmain.2.1, hmain.2.2.1, hmain.2.2.2, ?_, ?_, ?_⟩
  · intro hcap
    have hg2 : (can_post_today today s).2 = false := by
      simp [can_post_today]
      omega
    rw [process_content_queue, if_pos hg2]
    rfl
  · intro items db' s' hdate hcap
    exact pcqLoop_capped now today publish items db' s' hdate hcap
  · intro l1 l2 hsplit hcap7
    by_cases hgate : (canPostUpd today s).daily_post_count < max_posts_per_day
    · have hg2 : (can_post_today today s).2 = true := by
        simp [can_post_today, hgate]
      have heq : process_content_queue now today publish db s
          = pcqLoop now today publish (get_pending_content now db) db (canPostUpd today s) := by
        rw [process_content_queue, if_neg (by simp [hg2])]
        rfl
      have hdate : (pcqLoop now today publish l1 db (canPostUpd today s)).sched.last_post_date
          = some today :=
        (pcqLoop_spec now today publish l1 db (canPostUpd today s) hupd).1
      obtain ⟨hA, hP, hD, hS⟩ := pcqLoop_append now today publish l1 l2 db (canPostUpd today s)
      have hr2 : pcqLoop now today publish l2
          (pcqLoop now today publish l1 db (canPostUpd today s)).db
          (pcqLoop now today publish l1 db (canPostUpd today s)).sched
          = ⟨(pcqLoop now today publish l1 db (canPostUpd today s)).db,
             (pcqLoop now today publish l1 db (canPostUpd today s)).sched, 0, 0⟩ :=
        pcqLoop_capped now today publish l2 _ _ hdate hcap7
      rw [hr2] at hA hP hD
      dsimp only at hA hP hD
      rw [heq, hsplit]
      exact ⟨by omega, by omega, hD⟩
    · have hg2 : (can_post_today today s).2 = false := by
        simp [can_post_today]
        omega
      have heq : process_content_queue now today publish db s
          = ⟨db, canPostUpd today s, 0, 0⟩ := by
        rw [process_content_queue, if_pos hg2]
        rfl
      have hr1 : pcqLoop now today publish l1 db (canPostUpd today s)
          = ⟨db, canPostUpd today s, 0, 0⟩ :=
        pcqLoop_capped now today publish l1 db (canPostUpd today s) hupd (by omega)
      rw [heq, hr1]
      exact ⟨rfl, rfl, rfl⟩

/-- A store with one publishable queue item. -/
def c5db : Store := ⟨[⟨1, none, 0, true⟩], [], [⟨4, 1, List.replicate 60 'q', 0, 0⟩]⟩

/-- C5 witness: a drain pass starting from a zero counter on the same
day leaves the counter within the cap, and a pass entered with the
counter already at the cap submits no item and changes nothing. -/
theorem C5_drain_cap_witness :
    ((process_content_queue 5 3 (fun _ => some 42) c5db ⟨0, some 3⟩).sched.daily_post_count
        ≤ max_posts_per_day)
  ∧ process_content_queue 5 3 (fun _ => some 42) c5db ⟨8, some 3⟩
      = ⟨c5db, ⟨8, some 3⟩, 0, 0⟩ :=
  ⟨(C5_drain_cap 5 3 (fun _ => some 42) c5db ⟨0, some 3⟩).2.2.1 (by decide),
    (C5_drain_cap 5 3 (fun _ => some 42) c5db ⟨8, some 3⟩).2.2.2.2.1 (by decide)⟩

/-! ## C6: partial thread publication -/

theorem ptGo_spec (platform : Nat → Option Nat → PResult) (f : Nat → Nat) (k : Nat)
    (hok : ∀ c p, c < k → platform c p = PResult.ok (f c))
    (hfail : ∀ p, platform k p = PResult.failResp ∨ platform k p = PResult.exc) :
    ∀ (tweets : List Str) (c : Nat) (prev : Option Nat) (ids : List Nat),
      (∀ tw ∈ tweets, 10 ≤ (truncHard (pyStrip tw)).length) →
      c ≤ k → k - c < tweets.length →
      ptGo platform tweets c prev ids
        = (ids ++ (List.range' c (k - c)).map f, k + 1) := by
  intro tweets
  induction tweets with
  | nil =>
    intro c prev ids hval hck hlen
    simp at hlen
  | cons tw rest ih =>
    intro c prev ids hval hck hlen
    have hv := hval tw (List.mem_cons_self tw rest)
    simp only [ptGo]
    rw [if_neg (by omega)]
    by_cases hck' : c = k
    · subst hck'
      rcases hfail prev with hf | hf <;> rw [hf]
      · simp [Nat.sub_self]
      · simp [Nat.sub_self]
    · have hlt : c < k := by omega
      rw [hok c prev hlt]
      dsimp only
      rw [ih (c + 1) (some (f c)) (ids ++ [f c])
        (fun tw h => hval tw (List.mem_cons_of_mem _ h)) (by omega)
        (by rw [List.length_cons] at hlen; omega)]
      have hsub : k - (c + 1) = k - c - 1 := by omega
      have hcons : List.range' c (k - c) = c :: List.range' (c + 1) (k - c - 1) := by
        have h1 : k - c = (k - c - 1) + 1 := by omega
        conv_lhs => rw [h1]
        rw [List.range'_succ]
      rw [hsub, hcons]
      simp

/-- C6.  When every thread segment passes the length screen and the
platform confirms the first k calls (with k at least one) and then
fails or raises on call k, `post_thread` returns exactly the k
confirmed identifiers in submission order, having made exactly k + 1
platform calls — so no segment after the failing one is submitted. -/
theorem C6_partial_thread (tweets : List Str) (platform : Nat → Option Nat → PResult)
    (f : Nat → Nat) (k : Nat)
    (hval : ∀ tw ∈ tweets, 10 ≤ (truncHard (pyStrip tw)).length)
    (hk : 1 ≤ k) (hkn : k < tweets.length)
    (hok : ∀ c p, c < k → platform c p = PResult.ok (f c))
    (hfail : ∀ p, platform k p = PResult.failResp ∨ platform k p = PResult.exc) :
    post_thread platform tweets = some ((List.range k).map f)
  ∧ (ptGo platform tweets 0 none []).2 = k + 1 := by
  have hne : tweets ≠ [] := by
    intro h
    rw [h] at hkn
    simp at hkn
  have hrun := ptGo_spec platform f k hok hfail tweets 0 none [] hval (by omega)
    (by rw [Nat.sub_zero]; exact hkn)
  have hids : (ptGo platform tweets 0 none []).1 = (List.range k).map f := by
    rw [hrun]
    simp [List.range_eq_range']
  constructor
  · rw [post_thread, if_neg (by simp [hne]), hids,
      if_neg (by simp [List.isEmpty_iff, List.range_eq_nil]; omega)]
  · rw [hrun]

/-- Three valid 60-character segments. -/
def c6tweets : List Str :=
  [List.replicate 60 'a', List.replicate 60 'b', List.replicate 60 'c']

/-- A platform that confirms the first call with identifier 101 and
raises a forbidden error on every later call. -/
def c6platform : Nat → Option Nat → PResult :=
  fun c _ => if c = 0 then PResult.ok 101 else PResult.exc

/-- C6 witness: the three-segment thread whose second segment raises
returns exactly the first segment's identifier after two calls. -/
theorem C6_partial_thread_witness :
    post_thread c6platform c6tweets = some [101]
  ∧ (ptGo c6platform c6tweets 0 none []).2 = 2 := by
  have h := C6_partial_thread c6tweets c6platform (fun _ => 101) 1
    (by decide) (by decide) (by decide)
    (by
      intro c p hc
      have hc0 : c = 0 := by omega
      subst hc0
      rfl)
    (fun p => Or.inr rfl)
  refine ⟨?_, h.2⟩
  rw [h.1]
  decide

end TwitterBot
